import Mathlib

/-!
Verification of the kvs-bgp key/value-over-BGP codec, store and reassembly
buffer, shallowly embedded from the Rust sources (`src/kv.rs`, `src/store.rs`,
`src/peering.rs`, and the earlier revision in `src/lib.rs`).

Machine integers are modelled as `Nat` with explicit `% 2^w` at the points the
source performs an `as`-cast or stores into a fixed-width field.  IPv6
addresses are modelled as their 16-octet lists (`Ipv6Addr::octets`).  The
`bincode` serialization of the concrete deployment type `String` is the
fixed-width little-endian `u64` length prefix followed by the raw bytes; a
key/value is therefore carried as its raw byte list.  `DefaultHasher`
(SipHash-1-3) is abstracted as an arbitrary hash function parameter `hashFn`,
since no verified property depends on the concrete hash values.
-/

set_option autoImplicit false

namespace KvsBgp

/-! ## Byte-level helpers -/

/-- Big-endian bytes of a 16-bit value, as written by `BufMut::put_u16`.
The argument is expected to be `< 2 ^ 16` (callers reduce first). -/
def u16be (n : Nat) : List Nat := [n / 256 % 256, n % 256]

/-- Big-endian bytes of a 64-bit value, as written by `BufMut::put_u64`. -/
def u64be (n : Nat) : List Nat :=
  [n / 2 ^ 56 % 256, n / 2 ^ 48 % 256, n / 2 ^ 40 % 256, n / 2 ^ 32 % 256,
   n / 2 ^ 24 % 256, n / 2 ^ 16 % 256, n / 2 ^ 8 % 256, n % 256]

/-- Little-endian bytes of a 64-bit value, as `bincode` writes a `u64`
length prefix (fixed-int encoding, little endian). -/
def u64le (n : Nat) : List Nat :=
  [n % 256, n / 2 ^ 8 % 256, n / 2 ^ 16 % 256, n / 2 ^ 24 % 256,
   n / 2 ^ 32 % 256, n / 2 ^ 40 % 256, n / 2 ^ 48 % 256, n / 2 ^ 56 % 256]

/-- Read a big-endian `u64` from 8 bytes, as `u64::from_be_bytes`. -/
def readU64be (b : List Nat) : Nat :=
  (b.take 8).foldl (fun a x => 256 * a + x) 0

/-- Read a little-endian `u64` from 8 bytes, as `bincode` reads the
length prefix (`u64::from_le_bytes`). -/
def readU64le (b : List Nat) : Nat :=
  (b.take 8).foldr (fun x a => x + 256 * a) 0

/-- `Ipv6Addr::segments()[j]`: 16-bit segment `j` of a 16-octet address. -/
def seg (octets : List Nat) (j : Nat) : Nat :=
  256 * octets.getD (2 * j) 0 + octets.getD (2 * j + 1) 0

/-- Bytes of a string (the concrete deployment encodes ASCII text). -/
def strBytes (s : String) : List Nat := s.toList.map Char.toNat

/-! ## bincode serialization of the deployment types

The concrete deployment instantiates the generic store at `K = V = String`.
`bincode::serialize` of a `String` is the 8-byte little-endian length
followed by the UTF-8 bytes; `bincode::deserialize` reads the length,
requires that many bytes to be available, and ignores trailing bytes (the
legacy `bincode 1.x` top-level functions allow trailing bytes).  The
additional UTF-8 validity check on `String` contents is not modelled: every
byte list a verified property feeds through `deserialize` is either a
verbatim copy of serialized input or fails already at the length check. -/

/-- `bincode::serialize` of a string with raw bytes `s`. -/
def serialize (s : List Nat) : List Nat := u64le s.length ++ s

/-- `bincode::deserialize` of a string from `b` (prefix-length semantics). -/
def deserialize (b : List Nat) : Option (List Nat) :=
  if b.length < 8 then none
  else
    let n := readU64le (b.take 8)
    if b.length - 8 < n then none
    else some ((b.drop 8).take n)

/-! ## Data model (`src/kv.rs`) -/

/-- `KvsError` (`src/lib.rs` / `src/kv.rs`).  The `NotAKvsRoute` variant is
carried by the route-extraction layer. -/
inductive KvsError where
  | DecodeError (msg : String)
  | EncodeError (msg : String)
  | NotAKvsRoute
  deriving DecidableEq, Repr

/-- `KeyValue<K, V>` at the concrete deployment `K = V = String`:
the raw key bytes, raw value bytes, the 64-bit key hash and the `u16`
version.  (`hash` is derived from `key` by the constructors; `version`
is a `u16` in the source.) -/
structure KeyValue where
  key : List Nat
  value : List Nat
  hash : Nat
  version : Nat
  deriving DecidableEq, Repr

/-- `KeyValue::with_version` — the hash is recomputed from the key. -/
def KeyValue.withVersion (hashFn : List Nat → Nat) (k v : List Nat)
    (version : Nat) : KeyValue :=
  ⟨k, v, hashFn k, version⟩

/-- `KeyValue::new` — version starts at 0. -/
def KeyValue.new (hashFn : List Nat → Nat) (k v : List Nat) : KeyValue :=
  KeyValue.withVersion hashFn k v 0

/-- `KeyValue::update` — replace the value, increment the version.
(The source `version` is a `u16`; claims never push it past `65535`.) -/
def KeyValue.update (kv : KeyValue) (v : List Nat) : KeyValue :=
  { kv with value := v, version := kv.version + 1 }

/-- Serialized length of the key (`Key::len`, i.e. `bincode` length). -/
def KeyValue.keyLen (kv : KeyValue) : Nat := (serialize kv.key).length

/-- Serialized length of the value (`Value::len`). -/
def KeyValue.valLen (kv : KeyValue) : Nat := (serialize kv.value).length

/-- `KeyValue::number_of_routes`:
`((key.len() + value.len() + 4) as f32 / 12.0).ceil() as usize`.
Modelled as the exact natural-number ceiling; the `f32` computation in the
source agrees with it for all lengths below `2^24 - 4` (the `f32`
mantissa-exact range), which covers every length any claim mentions. -/
def KeyValue.numberOfRoutes (kv : KeyValue) : Nat :=
  (kv.keyLen + kv.valLen + 4 + 11) / 12

/-- `KeyValue::as_bytes`: serialized key followed by serialized value. -/
def KeyValue.asBytes (kv : KeyValue) : List Nat :=
  serialize kv.key ++ serialize kv.value

/-- The byte stream the encoder chunks: the 4-byte length header
`[key_len:16 BE][val_len:16 BE]` (each length `as u16`-truncated)
followed by `as_bytes`. -/
def KeyValue.stream (kv : KeyValue) : List Nat :=
  u16be (kv.keyLen % 65536) ++ u16be (kv.valLen % 65536) ++ kv.asBytes

/-- A `Route`: the prefix and next-hop addresses as 16-octet lists. -/
structure Route where
  pfx : List Nat
  nextHop : List Nat
  deriving DecidableEq, Repr

/-- `Prefix::sequence`: `segments()[1]` of the prefix address. -/
def Route.sequence (r : Route) : Nat := seg r.pfx 1

/-- `NextHop::version`: `segments()[1]` of the next-hop address. -/
def Route.nhVersion (r : Route) : Nat := seg r.nextHop 1

/-- `NextHop::collection_length`: `segments()[3]` of the next-hop. -/
def Route.collectionLength (r : Route) : Nat := seg r.nextHop 3

/-- `NextHop::hash`: big-endian `u64` from next-hop octets 8..16. -/
def Route.nhHash (r : Route) : Nat := readU64be (r.nextHop.drop 8)

/-- `Route::has_valid_prefix`: both addresses start with the
`0xBF51` magic bytes. -/
def Route.hasValidPfx (r : Route) : Bool :=
  r.pfx.take 2 = [0xbf, 0x51] && r.nextHop.take 2 = [0xbf, 0x51]

/-- `RouteCollection`: the wrapped vector of routes. -/
structure RouteCollection where
  routes : List Route
  deriving DecidableEq, Repr

/-- `RouteCollection::from_routes`: stable sort by `Route::sequence`.
The source uses `Vec::sort_by_key` (a stable merge sort); any two stable
sorts by the same key compute the same list, so `List.insertionSort` with
the non-strict key order is extensionally the same function. -/
def RouteCollection.fromRoutes (rs : List Route) : RouteCollection :=
  ⟨rs.insertionSort (fun a b => a.sequence ≤ b.sequence)⟩

/-! ## Encoding (`TryFrom<&KeyValue> for RouteCollection`) -/

/-- Pad a chunk to 12 bytes with zeros, as the encoder loop does. -/
def pad12 (s : List Nat) : List Nat :=
  s.take 12 ++ List.replicate (12 - (s.take 12).length) 0

/-- One encoded route: prefix `[magic][seq:16][chunk:96]`, next-hop
`[magic][version:16][seq:16][N:16][key_hash:64]`; every field written
through `put_u16`/`put_u64` is reduced to its width first, matching the
source's `as u16` casts and fixed-width puts. -/
def mkRoute (version hash n i : Nat) (data : List Nat) : Route :=
  { pfx := [0xbf, 0x51] ++ u16be (i % 65536) ++ data
    nextHop := [0xbf, 0x51] ++ u16be (version % 65536) ++ u16be (i % 65536) ++
      u16be (n % 65536) ++ u64be (hash % 2 ^ 64) }

/-- The encoder loop over 12-byte chunks of the stream.  `fuel` is a
structural-recursion bound; callers pass `s.length`, which always
dominates the chunk count. -/
def buildRoutes (version hash n : Nat) : Nat → List Nat → Nat → List Route
  | 0, _, _ => []
  | _ + 1, [], _ => []
  | fuel + 1, x :: xs, i =>
      mkRoute version hash n i (pad12 (x :: xs)) ::
        buildRoutes version hash n fuel (xs.drop 11) (i + 1)

/-- `RouteCollection::try_from(&KeyValue)` — the encoder.  The source
returns `Ok` unconditionally. -/
def encodeKv (kv : KeyValue) : RouteCollection :=
  RouteCollection.fromRoutes
    (buildRoutes kv.version kv.hash kv.numberOfRoutes kv.stream.length kv.stream 0)

/-- The fallible signature of the source encoder (`TryFrom`): it never
actually returns an error. -/
def encodeE (kv : KeyValue) : Except KvsError RouteCollection :=
  Except.ok (encodeKv kv)

/-! ## Decoding (`TryFrom<&RouteCollection> for KeyValue`) -/

/-- Outcome of the decoder.  `panicked` marks the `split_at` calls in the
source, which panic when the recorded length exceeds the gathered bytes. -/
inductive DecodeResult where
  | ok (kv : KeyValue)
  | err (e : KvsError)
  | panicked
  deriving DecidableEq, Repr

/-- The decoder's validation loop: route `i` must carry the magic bytes and
sequence `i as u16`; the payload octets are gathered (`octets()[8..]` for
the first route, `octets()[4..]` for the rest). -/
def gather : List Route → Nat → Except KvsError (List Nat)
  | [], _ => Except.ok []
  | r :: rs, i =>
    if r.hasValidPfx = true then
      if r.sequence = i % 65536 then
        match gather rs (i + 1) with
        | Except.error e => Except.error e
        | Except.ok rest =>
            Except.ok ((if i = 0 then r.pfx.drop 8 else r.pfx.drop 4) ++ rest)
      else
        Except.error (KvsError.DecodeError ((r"Missing route sequence # ") ++ Nat.repr i))
    else
      Except.error (KvsError.DecodeError (r"Not a KVS-BGP Prefix"))

/-- The tail of the decoder after the gather loop: the two `split_at`
calls (which panic if the length fields exceed the available bytes)
followed by `bincode` deserialization of key and value, and
`KeyValue::with_version` (which recomputes the hash from the key). -/
def splitPhase (hashFn : List Nat → Nat) (keyLength valLength version : Nat)
    (bytes : List Nat) : DecodeResult :=
  if bytes.length < keyLength then DecodeResult.panicked
  else
    let key := bytes.take keyLength
    let rest := bytes.drop keyLength
    if rest.length < valLength then DecodeResult.panicked
    else
      match deserialize key with
      | none => DecodeResult.err (KvsError.DecodeError (r"Couldn't decode key"))
      | some k =>
        match deserialize (rest.take valLength) with
        | none => DecodeResult.err (KvsError.DecodeError (r"Couldn't decode value"))
        | some v => DecodeResult.ok (KeyValue.withVersion hashFn k v version)

/-- `KeyValue::try_from(&RouteCollection)` — the decoder.  `key_length`,
`val_length` and `version` are read from the first route only; the
next-hop hash is read into a variable the source never uses. -/
def decodeKv (hashFn : List Nat → Nat) (rc : RouteCollection) : DecodeResult :=
  match rc.routes with
  | [] => DecodeResult.err (KvsError.DecodeError (r"At least one route should exist"))
  | first :: _ =>
    let keyLength := seg first.pfx 2
    let valLength := seg first.pfx 3
    match gather rc.routes 0 with
    | Except.error e => DecodeResult.err e
    | Except.ok bytes => splitPhase hashFn keyLength valLength (seg first.nextHop 1) bytes

/-! ## The earlier revision's address parsing (`src/lib.rs`)

`src/lib.rs` is an earlier revision of the codec.  Its
`impl From<&BytesMut> for Prefix` builds the address from an explicit octet
list that writes `bytes[3]` into both octet positions 2 and 3 (skipping
`bytes[2]`); the later revision (`src/kv.rs`) goes through `octets_to_ip`,
which `copy_from_slice`s the first 16 bytes verbatim. -/

/-- `From<&BytesMut> for Prefix` of the earlier revision
(`src/lib.rs`): octet 2 of the result is `bytes[3]`. -/
def pfxFromBytesOld (b : List Nat) : List Nat :=
  [b.getD 0 0, b.getD 1 0, b.getD 3 0, b.getD 3 0, b.getD 4 0, b.getD 5 0,
   b.getD 6 0, b.getD 7 0, b.getD 8 0, b.getD 9 0, b.getD 10 0, b.getD 11 0,
   b.getD 12 0, b.getD 13 0, b.getD 14 0, b.getD 15 0]

/-- `From<&BytesMut> for Prefix` of the corrected revision
(`src/kv.rs`), via `octets_to_ip(&bytes[..16])`: the first 16 bytes
verbatim. -/
def pfxFromBytesNew (b : List Nat) : List Nat := b.take 16

/-! ## The store (`src/store.rs`)

`KvStore.inner` is a `HashMap<String, KeyValue>`; it is modelled as an
association list with the usual first-match lookup/replace (the map's keys
are unique, so the order of entries is immaterial to any property below).
`outbound` is the `VecDeque` of queued updates (`push_back` appends). -/

/-- First-match association-list lookup (`HashMap::get`). -/
def alookup (l : List (List Nat × KeyValue)) (k : List Nat) : Option KeyValue :=
  (l.find? (fun p => p.1 = k)).map Prod.snd

/-- Replace the value of the first entry with key `k` (`HashMap::get_mut`
followed by assignment). -/
def aupdate (l : List (List Nat × KeyValue)) (k : List Nat) (v : KeyValue) :
    List (List Nat × KeyValue) :=
  match l with
  | [] => []
  | p :: ps => if p.1 = k then (k, v) :: ps else p :: aupdate ps k v

/-- Remove the first entry with key `k` (`HashMap::remove`). -/
def aerase (l : List (List Nat × KeyValue)) (k : List Nat) :
    List (List Nat × KeyValue) :=
  match l with
  | [] => []
  | p :: ps => if p.1 = k then ps else p :: aerase ps k

/-- `store::Update`: a queued announce/withdraw pair. -/
structure StoreUpdate where
  announce : Option RouteCollection
  withdraw : Option RouteCollection
  deriving DecidableEq, Repr

/-- `KvStore`: the key → pair map and the outbound queue. -/
structure KvStore where
  inner : List (List Nat × KeyValue)
  outbound : List StoreUpdate
  deriving DecidableEq, Repr

/-- The empty store (`KvStore::new`). -/
def KvStore.new : KvStore := ⟨[], []⟩

/-- `KvStore::insert`.  If the key exists: encode the existing pair to a
withdraw collection, call `KeyValue::update` (replace value, bump
version), encode the result to an announce collection, and queue both.
Otherwise: build a fresh pair at version 0 and queue an announce-only
update.  The source's `Result` return is always `Ok` because the encoder
never fails. -/
def KvStore.insert (hashFn : List Nat → Nat) (st : KvStore)
    (k v : List Nat) : KvStore :=
  match alookup st.inner k with
  | some existing =>
      let withdraw := encodeKv existing
      let updated := existing.update v
      { inner := aupdate st.inner k updated
        outbound := st.outbound ++ [⟨some (encodeKv updated), some withdraw⟩] }
  | none =>
      let kv := KeyValue.new hashFn k v
      { inner := st.inner ++ [(k, kv)]
        outbound := st.outbound ++ [⟨some (encodeKv kv), none⟩] }

/-- `KvStore::remove`: drop the entry (if any) and queue a withdraw-only
update encoded from the removed pair. -/
def KvStore.remove (st : KvStore) (k : List Nat) : KvStore :=
  match alookup st.inner k with
  | some removed =>
      { inner := aerase st.inner k
        outbound := st.outbound ++ [⟨none, some (encodeKv removed)⟩] }
  | none => st

/-- A store mutation issued through the API. -/
inductive Op where
  | ins (k v : List Nat)
  | rem (k : List Nat)
  deriving DecidableEq, Repr

/-- Is this mutation an insert? -/
def Op.isIns : Op → Bool
  | Op.ins _ _ => true
  | Op.rem _ => false

/-- Apply one mutation. -/
def applyOp (hashFn : List Nat → Nat) (st : KvStore) : Op → KvStore
  | Op.ins k v => st.insert hashFn k v
  | Op.rem k => st.remove k

/-- Run a sequence of mutations from a starting store. -/
def runOps (hashFn : List Nat → Nat) (st : KvStore) (ops : List Op) : KvStore :=
  ops.foldl (applyOp hashFn) st

/-- The stored version of a key, when present. -/
def versionOf (st : KvStore) (k : List Nat) : Option Nat :=
  (alookup st.inner k).map KeyValue.version

/-! ## The reassembly buffer (`src/peering.rs`, `BgpPeerings::run`)

`pending_routes: HashMap<u64, Vec<Route>>`, keyed by the route's next-hop
hash.  Each inbound route is pushed unconditionally onto its entry; when
the entry's length equals the route's `collection_length`, the entry is
removed, sorted into a `RouteCollection` and decoded; a successful decode
is delivered to the store (`insert_from_peer` — the delivery itself is
modelled as appending to `delivered`).  A decoder panic would abort the
task; that is recorded in `dead` and freezes the state. -/

/-- Association-list lookup on `Nat` keys (`HashMap::entry`). -/
def blookup (l : List (Nat × List Route)) (h : Nat) : Option (List Route) :=
  (l.find? (fun p => p.1 = h)).map Prod.snd

/-- Replace-or-append an entry (`HashMap::entry(..).or_insert_with` after
a push-back of the new route). -/
def bupsert (l : List (Nat × List Route)) (h : Nat) (rs : List Route) :
    List (Nat × List Route) :=
  match l with
  | [] => [(h, rs)]
  | p :: ps => if p.1 = h then (h, rs) :: ps else p :: bupsert ps h rs

/-- Remove an entry (`HashMap::remove`). -/
def berase (l : List (Nat × List Route)) (h : Nat) : List (Nat × List Route) :=
  match l with
  | [] => []
  | p :: ps => if p.1 = h then ps else p :: berase ps h

/-- The reassembly state: pending fragments, pairs delivered to the store,
and whether the task has panicked. -/
structure BufState where
  pending : List (Nat × List Route)
  delivered : List KeyValue
  dead : Bool
  deriving DecidableEq, Repr

/-- The empty reassembly state. -/
def BufState.empty : BufState := ⟨[], [], false⟩

/-- One iteration of the inbound arm of `BgpPeerings::run` for a route that
already passed the `TryFrom<&Update>` extraction (magic checked there). -/
def bufferStep (hashFn : List Nat → Nat) (st : BufState) (r : Route) : BufState :=
  if st.dead then st
  else
    let h := r.nhHash
    let kvLength := r.collectionLength
    let routes := (blookup st.pending h).getD [] ++ [r]
    if routes.length = kvLength then
      let pending := berase st.pending h
      match decodeKv hashFn (RouteCollection.fromRoutes routes) with
      | DecodeResult.ok kv => { st with pending := pending, delivered := st.delivered ++ [kv] }
      | DecodeResult.err _ => { st with pending := pending }
      | DecodeResult.panicked => { st with pending := pending, dead := true }
    else { st with pending := bupsert st.pending h routes }

/-- Feed a sequence of inbound routes through the buffer. -/
def bufferRun (hashFn : List Nat → Nat) (st : BufState) (rs : List Route) : BufState :=
  rs.foldl (bufferStep hashFn) st

/-! ## Concrete instances used by witnesses and counterexamples -/

/-- A concrete stand-in for `DefaultHasher` (SipHash-1-3), used to
instantiate the abstract `hashFn` parameter on concrete inputs; no
verified property depends on the hash values themselves. -/
def sampleHash (b : List Nat) : Nat := b.length + b.foldl (fun a x => a + x) 0

/-- The S4 scenario pair `("MyKey", "Some Value")` at version 0
(`round_trip` test in `src/kv.rs`). -/
def kvS4 : KeyValue :=
  ⟨strBytes (r"MyKey"), strBytes (r"Some Value"),
   sampleHash (strBytes (r"MyKey")), 0⟩

/-- The pair of the `missing_route` test in `src/kv.rs`
(`("MyKey", "Something longer that needs multiple routes")`), which
encodes to 6 routes. -/
def kvMissing : KeyValue :=
  ⟨strBytes (r"MyKey"), strBytes (r"Something longer that needs multiple routes"),
   sampleHash (strBytes (r"MyKey")), 0⟩

/-- A pair whose serialized value length is exactly `2 ^ 16` (raw value
65 528 bytes), so the `val_len as u16` field wraps to 0.  Combined
serialized length 65 544 ≤ 786 420. -/
def kvWrapVal : KeyValue := ⟨[], List.replicate 65528 3, sampleHash [], 0⟩

/-- A pair that encodes to exactly `2 ^ 16` routes (stream length
786 432 = 65 536 × 12), so the `N as u16` next-hop field wraps to 0. -/
def kvWrapN : KeyValue := ⟨[], List.replicate 786412 0, 0, 0⟩

/-- A pair whose combined serialized payload (786 436 bytes) exceeds the
`65 535 × 12 = 786 420`-byte capacity bound. -/
def kvOversize : KeyValue := ⟨[], List.replicate 786420 0, 0, 0⟩

/-- A 3-route pair for the duplicate-route scenario. -/
def kvDup : KeyValue := ⟨[107], strBytes (r"Hello, world!"), sampleHash [107], 0⟩

/-- Version-0 pair for the supersession scenario. -/
def kvVer0 : KeyValue := ⟨[107], [118], sampleHash [107], 0⟩

/-- The same key rewritten at version 1. -/
def kvVer1 : KeyValue := ⟨[107], [119], sampleHash [107], 1⟩

/-- A well-formed 2-route collection whose two next-hops disagree in
`version` (0 vs 9), `N` (2 vs 7) and `key_hash` (0 vs ≠ 0): both length
fields are 8 and the 20 payload bytes are the two empty-string
serializations plus padding. -/
def rcMixed : RouteCollection :=
  ⟨[⟨[0xbf, 0x51, 0, 0, 0, 8, 0, 8, 0, 0, 0, 0, 0, 0, 0, 0],
     [0xbf, 0x51, 0, 0, 0, 0, 0, 2, 0, 0, 0, 0, 0, 0, 0, 0]⟩,
    ⟨[0xbf, 0x51, 0, 1, 0, 0, 0, 0, 0, 0, 0, 0, 0, 0, 0, 0],
     [0xbf, 0x51, 0, 9, 0, 1, 0, 7, 1, 2, 3, 4, 5, 6, 7, 8]⟩]⟩

/-- A route without the `0xBF51` magic. -/
def badRoute : Route :=
  ⟨[0, 0, 0, 0, 0, 8, 0, 8, 0, 0, 0, 0, 0, 0, 0, 0],
   [0, 0, 0, 0, 0, 0, 0, 1, 0, 0, 0, 0, 0, 0, 0, 0]⟩

/-- A single-route collection without the `0xBF51` magic. -/
def rcNoMagic : RouteCollection := ⟨[badRoute]⟩

/-- Mutations: create a key, update it, remove it, re-create it. -/
def opsTwoInserts : List Op := [Op.ins [107] [97], Op.ins [107] [98]]

/-- The same prefix extended with a remove and a re-insert. -/
def opsRemReinsert : List Op :=
  opsTwoInserts ++ [Op.rem [107], Op.ins [107] [99]]

/-- A one-entry store holding `kvVer0`, used to witness the insert-on-
existing-key behaviour. -/
def stOneKey : KvStore := ⟨[([107], kvVer0)], []⟩

/-- A 16-byte sample address whose bytes 2 and 3 differ. -/
def sampleBytes16 : List Nat :=
  [0, 1, 2, 3, 4, 5, 6, 7, 8, 9, 10, 11, 12, 13, 14, 15]

/-! ## Structural lemmas about the encoder -/

/-- Zero-padding added to the last chunk of a stream of length `L`. -/
def padLen (L : Nat) : Nat := 12 * ((L + 11) / 12) - L

theorem length_u16be (n : Nat) : (u16be n).length = 2 := rfl

theorem length_u64le (n : Nat) : (u64le n).length = 8 := rfl

theorem length_serialize (s : List Nat) : (serialize s).length = 8 + s.length := by
  simp [serialize, u64le]; omega

theorem length_stream (kv : KeyValue) :
    kv.stream.length = 4 + kv.keyLen + kv.valLen := by
  simp [KeyValue.stream, KeyValue.asBytes, u16be, KeyValue.keyLen, KeyValue.valLen]
  omega

theorem numberOfRoutes_formula (kv : KeyValue) :
    kv.numberOfRoutes = (kv.keyLen + kv.valLen + 4 + 11) / 12 := rfl

theorem numberOfRoutes_eq (kv : KeyValue) :
    kv.numberOfRoutes = (kv.stream.length + 11) / 12 := by
  rw [length_stream]; simp [KeyValue.numberOfRoutes]; ring_nf

theorem readU64le_u64le (n : Nat) (h : n < 2 ^ 64) : readU64le (u64le n) = n := by
  simp only [readU64le, u64le, List.take, List.foldr]
  omega

theorem deserialize_serialize (s : List Nat) (h : s.length < 2 ^ 64) :
    deserialize (serialize s) = some s := by
  have hlen : (serialize s).length = 8 + s.length := length_serialize s
  have htake : (serialize s).take 8 = u64le s.length := by
    simp [serialize, u64le]
  have hdrop : (serialize s).drop 8 = s := by
    simp [serialize, u64le]
  simp [deserialize, hlen, htake, hdrop, readU64le_u64le s.length h]

theorem mkRoute_valid (v h n i : Nat) (d : List Nat) :
    (mkRoute v h n i d).hasValidPfx = true := rfl

theorem mkRoute_sequence (v h n i : Nat) (d : List Nat) :
    (mkRoute v h n i d).sequence = i % 65536 := by
  have : (mkRoute v h n i d).sequence =
      256 * (i % 65536 / 256 % 256) + i % 65536 % 256 := rfl
  omega

theorem mkRoute_nhVersion (v h n i : Nat) (d : List Nat) :
    (mkRoute v h n i d).nhVersion = v % 65536 := by
  have : (mkRoute v h n i d).nhVersion =
      256 * (v % 65536 / 256 % 256) + v % 65536 % 256 := rfl
  omega

theorem mkRoute_collectionLength (v h n i : Nat) (d : List Nat) :
    (mkRoute v h n i d).collectionLength = n % 65536 := by
  have : (mkRoute v h n i d).collectionLength =
      256 * (n % 65536 / 256 % 256) + n % 65536 % 256 := rfl
  omega

theorem mkRoute_pfx_drop4 (v h n i : Nat) (d : List Nat) :
    (mkRoute v h n i d).pfx.drop 4 = d := rfl

theorem mkRoute_pfx_drop8 (v h n i : Nat) (d : List Nat) :
    (mkRoute v h n i d).pfx.drop 8 = d.drop 4 := by
  simp [mkRoute, u16be, List.drop_append]

theorem mkRoute_pfx_seg2 (v h n i : Nat) (d : List Nat) :
    seg (mkRoute v h n i d).pfx 2 = 256 * d.getD 0 0 + d.getD 1 0 := rfl

theorem mkRoute_pfx_seg3 (v h n i : Nat) (d : List Nat) :
    seg (mkRoute v h n i d).pfx 3 = 256 * d.getD 2 0 + d.getD 3 0 := rfl

theorem buildRoutes_cons (v h n fuel i : Nat) (s : List Nat) (hs : s ≠ [])
    (hf : 1 ≤ fuel) :
    buildRoutes v h n fuel s i =
      mkRoute v h n i (pad12 s) ::
        buildRoutes v h n (fuel - 1) (s.drop 12) (i + 1) := by
  match fuel, s with
  | f + 1, x :: xs => rfl

theorem buildRoutes_length (v h n : Nat) :
    ∀ fuel s i, s.length ≤ fuel →
      (buildRoutes v h n fuel s i).length = (s.length + 11) / 12 := by
  intro fuel
  induction fuel with
  | zero =>
    intro s i hs
    have : s = [] := List.length_eq_zero.mp (Nat.le_zero.mp hs)
    subst this; rfl
  | succ f ih =>
    intro s i hs
    match s with
    | [] => rfl
    | x :: xs =>
      have hlen : (xs.drop 11).length = xs.length - 11 := by simp
      have hrec := ih (xs.drop 11) (i + 1) (by simp at hs ⊢; omega)
      simp only [buildRoutes, List.length_cons, hrec, hlen]
      have := xs.length
      omega

theorem buildRoutes_map_sequence (v h n : Nat) :
    ∀ fuel s i, s.length ≤ fuel →
      (buildRoutes v h n fuel s i).map Route.sequence =
        (List.range ((s.length + 11) / 12)).map (fun j => (i + j) % 65536) := by
  intro fuel
  induction fuel with
  | zero =>
    intro s i hs
    have : s = [] := List.length_eq_zero.mp (Nat.le_zero.mp hs)
    subst this; rfl
  | succ f ih =>
    intro s i hs
    match s with
    | [] => rfl
    | x :: xs =>
      have hlen : (xs.drop 11).length = xs.length - 11 := by simp
      have hrec := ih (xs.drop 11) (i + 1) (by simp at hs ⊢; omega)
      have hm : ((x :: xs).length + 11) / 12 = ((xs.drop 11).length + 11) / 12 + 1 := by
        simp only [hlen, List.length_cons]; omega
      simp only [buildRoutes, List.map_cons, hrec, mkRoute_sequence, hm,
        List.range_succ_eq_map, List.map_map]
      refine List.cons_eq_cons.mpr ⟨by omega, ?_⟩
      apply List.map_congr_left
      intro j _
      simp [Function.comp]
      omega

theorem buildRoutes_mem (v h n : Nat) :
    ∀ fuel s i r, r ∈ buildRoutes v h n fuel s i →
      ∃ j d, r = mkRoute v h n j d := by
  intro fuel
  induction fuel with
  | zero => intro s i r hr; cases hr
  | succ f ih =>
    intro s i r hr
    match s with
    | [] => cases hr
    | x :: xs =>
      simp only [buildRoutes, List.mem_cons] at hr
      cases hr with
      | inl h' => exact ⟨i, pad12 (x :: xs), h'⟩
      | inr h' => exact ih _ _ _ h'

theorem pad12_glue (s : List Nat) (hs : s ≠ []) :
    pad12 s ++ (s.drop 12 ++ List.replicate (padLen (s.length - 12)) 0) =
      s ++ List.replicate (padLen s.length) 0 := by
  have hL : 1 ≤ s.length := by
    cases s with
    | nil => exact absurd rfl hs
    | cons x xs => simp
  by_cases h12 : 12 ≤ s.length
  · have htake : (s.take 12).length = 12 := by simp [h12]
    have hpad : pad12 s = s.take 12 := by
      simp [pad12, htake]
    have hpadLen : padLen (s.length - 12) = padLen s.length := by
      unfold padLen; omega
    rw [hpad, hpadLen, ← List.append_assoc, List.take_append_drop]
  · have hdrop : s.drop 12 = [] := List.drop_of_length_le (by omega)
    have htake : s.take 12 = s := List.take_of_length_le (by omega)
    have hpadLen0 : padLen (s.length - 12) = padLen 0 := by
      have : s.length - 12 = 0 := by omega
      rw [this]
    have hpad0 : padLen 0 = 0 := by unfold padLen; omega
    have hpadL : padLen s.length = 12 - s.length := by
      unfold padLen; omega
    simp [pad12, hdrop, htake, hpadLen0, hpad0, hpadL]

theorem padLen_zero : padLen 0 = 0 := by unfold padLen; omega

theorem gather_buildRoutes_pos (v h n : Nat) :
    ∀ fuel s i, s.length ≤ fuel → 1 ≤ i →
      gather (buildRoutes v h n fuel s i) i =
        Except.ok (s ++ List.replicate (padLen s.length) 0) := by
  intro fuel
  induction fuel with
  | zero =>
    intro s i hs hi
    have : s = [] := List.length_eq_zero.mp (Nat.le_zero.mp hs)
    subst this
    rfl
  | succ f ih =>
    intro s i hs hi
    match s with
    | [] => rfl
    | x :: xs =>
      have hrec := ih (xs.drop 11) (i + 1) (by simp at hs ⊢; omega) (by omega)
      have hi0 : i ≠ 0 := by omega
      simp only [buildRoutes, gather, mkRoute_valid, mkRoute_sequence,
        if_pos rfl, if_true, if_neg hi0]
      rw [hrec]
      simp only [mkRoute_pfx_drop4]
      have e1 : List.drop 11 xs = (x :: xs).drop 12 := rfl
      have e2 : ((x :: xs).drop 12).length = (x :: xs).length - 12 := by simp
      rw [e1, e2, pad12_glue (x :: xs) (by simp)]

theorem gather_buildRoutes_zero (v h n : Nat) (s : List Nat) (fuel : Nat)
    (h12 : 12 ≤ s.length) (hf : s.length ≤ fuel) :
    gather (buildRoutes v h n fuel s 0) 0 =
      Except.ok (s.drop 4 ++ List.replicate (padLen s.length) 0) := by
  have hs : s ≠ [] := by
    cases s with
    | nil => simp at h12
    | cons x xs => simp
  rw [buildRoutes_cons v h n fuel 0 s hs (by omega)]
  have hrec := gather_buildRoutes_pos v h n (fuel - 1) (s.drop 12) 1
    (by simp; omega) (by omega)
  simp only [gather, mkRoute_valid, mkRoute_sequence, if_pos rfl, if_true]
  rw [hrec]
  simp only [if_pos rfl, mkRoute_pfx_drop8]
  have hlen12 : (s.take 12).length = 12 := by simp [h12]
  have hpad : pad12 s = s.take 12 := by simp [pad12, hlen12]
  have hdt : (s.take 12).drop 4 ++ s.drop 12 = s.drop 4 := by
    conv_rhs => rw [← List.take_append_drop 12 s]
    rw [List.drop_append_of_le_length (by omega)]
  have hpadLen : padLen (s.drop 12).length = padLen s.length := by
    simp only [List.length_drop]
    unfold padLen; omega
  rw [hpad, hpadLen, ← List.append_assoc, hdt]

theorem pad12_of_ge (s : List Nat) (h : 12 ≤ s.length) : pad12 s = s.take 12 := by
  have : (s.take 12).length = 12 := by simp [h]
  simp [pad12, this]

theorem stream_ge_20 (kv : KeyValue) : 20 ≤ kv.stream.length := by
  have hk : 8 ≤ kv.keyLen := by
    unfold KeyValue.keyLen; rw [length_serialize]; omega
  have hv : 8 ≤ kv.valLen := by
    unfold KeyValue.valLen; rw [length_serialize]; omega
  rw [length_stream]; omega

theorem keyLen_field (kv : KeyValue) :
    256 * (kv.stream.take 12).getD 0 0 + (kv.stream.take 12).getD 1 0 =
      kv.keyLen % 65536 := by
  have h0 : (kv.stream.take 12).getD 0 0 = kv.keyLen % 65536 / 256 % 256 := rfl
  have h1 : (kv.stream.take 12).getD 1 0 = kv.keyLen % 65536 % 256 := rfl
  rw [h0, h1]; omega

theorem valLen_field (kv : KeyValue) :
    256 * (kv.stream.take 12).getD 2 0 + (kv.stream.take 12).getD 3 0 =
      kv.valLen % 65536 := by
  have h2 : (kv.stream.take 12).getD 2 0 = kv.valLen % 65536 / 256 % 256 := rfl
  have h3 : (kv.stream.take 12).getD 3 0 = kv.valLen % 65536 % 256 := rfl
  rw [h2, h3]; omega

theorem stream_drop4 (kv : KeyValue) : kv.stream.drop 4 = kv.asBytes := rfl

/-- With at most `2^16` routes, the sequence numbers written by the encoder
are already strictly ascending, so `from_routes`' stable sort is the
identity: the collection is the raw encoder output. -/
theorem encodeKv_routes (kv : KeyValue) (hN : kv.numberOfRoutes ≤ 65536) :
    (encodeKv kv).routes =
      buildRoutes kv.version kv.hash kv.numberOfRoutes kv.stream.length
        kv.stream 0 := by
  unfold encodeKv RouteCollection.fromRoutes
  apply List.Sorted.insertionSort_eq
  have hmap := buildRoutes_map_sequence kv.version kv.hash kv.numberOfRoutes
    kv.stream.length kv.stream 0 le_rfl
  have hrange : (kv.stream.length + 11) / 12 = kv.numberOfRoutes :=
    (numberOfRoutes_eq kv).symm
  rw [hrange] at hmap
  have hmap' : (buildRoutes kv.version kv.hash kv.numberOfRoutes
      kv.stream.length kv.stream 0).map Route.sequence =
      List.range kv.numberOfRoutes := by
    rw [hmap]
    have : ∀ j ∈ List.range kv.numberOfRoutes, (0 + j) % 65536 = id j := by
      intro j hj
      have := List.mem_range.mp hj
      simp only [id]
      omega
    rw [List.map_congr_left this, List.map_id]
  have hpair : List.Pairwise (fun a b : Nat => a ≤ b)
      ((buildRoutes kv.version kv.hash kv.numberOfRoutes kv.stream.length
        kv.stream 0).map Route.sequence) := by
    rw [hmap']; exact List.pairwise_le_range _
  exact List.pairwise_map.mp hpair

theorem decodeKv_cons (hashFn : List Nat → Nat) (first : Route)
    (rest : List Route) :
    decodeKv hashFn ⟨first :: rest⟩ =
      (match gather (first :: rest) 0 with
      | Except.error e => DecodeResult.err e
      | Except.ok bytes =>
          splitPhase hashFn (seg first.pfx 2) (seg first.pfx 3)
            (seg first.nextHop 1) bytes) := rfl

/-- Master decode-of-encode lemma: for any pair with at most `2^16` routes,
the decoder reaches the split-and-deserialize phase with the
`u16`-truncated length and version fields and the zero-padded
serialized payload gathered back exactly. -/
theorem decode_encode (hashFn : List Nat → Nat) (kv : KeyValue)
    (hN : kv.numberOfRoutes ≤ 65536) :
    decodeKv hashFn (encodeKv kv) =
      splitPhase hashFn (kv.keyLen % 65536) (kv.valLen % 65536)
        (kv.version % 65536)
        (kv.asBytes ++ List.replicate (padLen kv.stream.length) 0) := by
  have h20 := stream_ge_20 kv
  have hcons := buildRoutes_cons kv.version kv.hash kv.numberOfRoutes
    kv.stream.length 0 kv.stream
    (by intro he; rw [he] at h20; simp at h20) (by omega)
  have hroutes := encodeKv_routes kv hN
  have hrc : encodeKv kv =
      ⟨mkRoute kv.version kv.hash kv.numberOfRoutes 0 (pad12 kv.stream) ::
        buildRoutes kv.version kv.hash kv.numberOfRoutes
          (kv.stream.length - 1) (kv.stream.drop 12) 1⟩ := by
    have : encodeKv kv = ⟨(encodeKv kv).routes⟩ := rfl
    rw [this, hroutes, hcons]
  rw [hrc, decodeKv_cons, ← hcons,
    gather_buildRoutes_zero kv.version kv.hash kv.numberOfRoutes kv.stream
      kv.stream.length (by omega) le_rfl]
  have hseg2 : seg (mkRoute kv.version kv.hash kv.numberOfRoutes 0
      (pad12 kv.stream)).pfx 2 = kv.keyLen % 65536 := by
    rw [mkRoute_pfx_seg2, pad12_of_ge kv.stream (by omega)]
    exact keyLen_field kv
  have hseg3 : seg (mkRoute kv.version kv.hash kv.numberOfRoutes 0
      (pad12 kv.stream)).pfx 3 = kv.valLen % 65536 := by
    rw [mkRoute_pfx_seg3, pad12_of_ge kv.stream (by omega)]
    exact valLen_field kv
  have hver : seg (mkRoute kv.version kv.hash kv.numberOfRoutes 0
      (pad12 kv.stream)).nextHop 1 = kv.version % 65536 :=
    mkRoute_nhVersion kv.version kv.hash kv.numberOfRoutes 0 (pad12 kv.stream)
  rw [hseg2, hseg3, hver, stream_drop4]

/-- Round trip for pairs whose serialized key and value each fit the `u16`
length fields. -/
theorem decode_encode_roundTrip (hashFn : List Nat → Nat) (kv : KeyValue)
    (hk : kv.keyLen ≤ 65535) (hv : kv.valLen ≤ 65535)
    (hver : kv.version < 65536) (hh : kv.hash = hashFn kv.key) :
    decodeKv hashFn (encodeKv kv) = DecodeResult.ok kv := by
  have hN : kv.numberOfRoutes ≤ 65536 := by
    unfold KeyValue.numberOfRoutes; omega
  rw [decode_encode hashFn kv hN]
  have hkm : kv.keyLen % 65536 = kv.keyLen := Nat.mod_eq_of_lt (by omega)
  have hvm : kv.valLen % 65536 = kv.valLen := Nat.mod_eq_of_lt (by omega)
  have hverm : kv.version % 65536 = kv.version := Nat.mod_eq_of_lt hver
  rw [hkm, hvm, hverm]
  have hklen : (serialize kv.key).length = kv.keyLen := rfl
  have hvlen : (serialize kv.value).length = kv.valLen := rfl
  have hbytes : (kv.asBytes ++ List.replicate (padLen kv.stream.length) 0).length =
      kv.keyLen + kv.valLen + padLen kv.stream.length := by
    simp [KeyValue.asBytes, hklen, hvlen]
    omega
  unfold splitPhase
  rw [if_neg (by omega)]
  have htail : kv.asBytes ++ List.replicate (padLen kv.stream.length) 0 =
      serialize kv.key ++ (serialize kv.value ++
        List.replicate (padLen kv.stream.length) 0) := by
    simp [KeyValue.asBytes]
  have htake : (kv.asBytes ++ List.replicate (padLen kv.stream.length) 0).take
      kv.keyLen = serialize kv.key := by
    rw [htail]; exact List.take_left' hklen
  have hdrop : (kv.asBytes ++ List.replicate (padLen kv.stream.length) 0).drop
      kv.keyLen = serialize kv.value ++
        List.replicate (padLen kv.stream.length) 0 := by
    rw [htail]; exact List.drop_left' hklen
  rw [htake, hdrop]
  have hrestlen : (serialize kv.value ++
      List.replicate (padLen kv.stream.length) 0).length =
      kv.valLen + padLen kv.stream.length := by
    simp [hvlen]
  rw [if_neg (by omega)]
  have htakev : (serialize kv.value ++
      List.replicate (padLen kv.stream.length) 0).take kv.valLen =
      serialize kv.value := List.take_left' hvlen
  rw [htakev,
    deserialize_serialize kv.key (by have := length_serialize kv.key; omega),
    deserialize_serialize kv.value (by have := length_serialize kv.value; omega)]
  show DecodeResult.ok (KeyValue.withVersion hashFn kv.key kv.value kv.version) = _
  unfold KeyValue.withVersion
  rw [← hh]

theorem readU64be_u64be (n : Nat) (h : n < 2 ^ 64) :
    readU64be (u64be n) = n := by
  simp only [readU64be, u64be, List.take, List.foldl]
  omega

theorem mkRoute_nhHash (v h n i : Nat) (d : List Nat) (hh : h < 2 ^ 64) :
    (mkRoute v h n i d).nhHash = h := by
  have hdrop : (mkRoute v h n i d).nextHop.drop 8 = u64be (h % 2 ^ 64) := rfl
  rw [Route.nhHash, hdrop, Nat.mod_eq_of_lt hh]
  exact readU64be_u64be h hh

/-- The sequence numbers of the sorted encoder output are exactly
`0 .. N-1` whenever `N ≤ 2^16`. -/
theorem encodeKv_map_sequence (kv : KeyValue) (hN : kv.numberOfRoutes ≤ 65536) :
    (encodeKv kv).routes.map Route.sequence = List.range kv.numberOfRoutes := by
  rw [encodeKv_routes kv hN,
    buildRoutes_map_sequence kv.version kv.hash kv.numberOfRoutes
      kv.stream.length kv.stream 0 le_rfl, ← numberOfRoutes_eq]
  have : ∀ j ∈ List.range kv.numberOfRoutes, (0 + j) % 65536 = id j := by
    intro j hj
    have := List.mem_range.mp hj
    simp only [id]
    omega
  rw [List.map_congr_left this, List.map_id]

theorem encodeKv_length (kv : KeyValue) (hN : kv.numberOfRoutes ≤ 65536) :
    (encodeKv kv).routes.length = kv.numberOfRoutes := by
  rw [encodeKv_routes kv hN,
    buildRoutes_length kv.version kv.hash kv.numberOfRoutes kv.stream.length
      kv.stream 0 le_rfl, ← numberOfRoutes_eq]

/-- Every route of the raw encoder output is a `mkRoute` of the pair's
version, hash and route count. -/
theorem encodeKv_mem_shape (kv : KeyValue) (r : Route)
    (hr : r ∈ (encodeKv kv).routes) :
    ∃ j d, r = mkRoute kv.version kv.hash kv.numberOfRoutes j d := by
  have hperm := List.perm_insertionSort
    (fun a b : Route => a.sequence ≤ b.sequence)
    (buildRoutes kv.version kv.hash kv.numberOfRoutes kv.stream.length
      kv.stream 0)
  have hr' : r ∈ buildRoutes kv.version kv.hash kv.numberOfRoutes
      kv.stream.length kv.stream 0 := hperm.mem_iff.mp hr
  exact buildRoutes_mem kv.version kv.hash kv.numberOfRoutes _ _ _ r hr'

/-- If any route of a collection fails the magic check or carries the
wrong sequence number for its position, the gather loop returns a
decode error. -/
theorem gather_err_of_bad :
    ∀ (routes : List Route) (i j : Nat) (r : Route),
      routes.get? j = some r →
      (¬ r.hasValidPfx = true ∨ r.sequence ≠ (i + j) % 65536) →
      ∃ e, gather routes i = Except.error e := by
  intro routes
  induction routes with
  | nil => intro i j r hj _; simp at hj
  | cons x xs ih =>
    intro i j r hj hbad
    by_cases hvalid : x.hasValidPfx = true
    · by_cases hseq : x.sequence = i % 65536
      · match j with
        | 0 =>
          simp only [List.get?] at hj
          cases hj
          rcases hbad with h' | h'
          · exact absurd hvalid h'
          · simp only [Nat.add_zero] at h'
            exact absurd hseq h'
        | j' + 1 =>
          simp only [List.get?] at hj
          obtain ⟨e, he⟩ := ih (i + 1) j' r hj
            (by rcases hbad with h' | h'
                · exact Or.inl h'
                · refine Or.inr ?_
                  have : i + 1 + j' = i + (j' + 1) := by omega
                  rw [this]
                  exact h')
          refine ⟨e, ?_⟩
          simp only [gather, if_pos hvalid, if_pos hseq, he]
      · refine ⟨KvsError.DecodeError ((r"Missing route sequence # ") ++ Nat.repr i), ?_⟩
        simp only [gather, if_pos hvalid, if_neg hseq]
    · refine ⟨KvsError.DecodeError (r"Not a KVS-BGP Prefix"), ?_⟩
      simp only [gather, if_neg hvalid]

/-- The first encoder route (sequence 0) is a member of the encoded
collection. -/
theorem encodeKv_head_mem (kv : KeyValue) :
    mkRoute kv.version kv.hash kv.numberOfRoutes 0 (pad12 kv.stream) ∈
      (encodeKv kv).routes := by
  have h20 := stream_ge_20 kv
  have hcons := buildRoutes_cons kv.version kv.hash kv.numberOfRoutes
    kv.stream.length 0 kv.stream
    (by intro he; rw [he] at h20; simp only [List.length_nil] at h20; omega)
    (by omega)
  have hperm := List.perm_insertionSort
    (fun a b : Route => a.sequence ≤ b.sequence)
    (buildRoutes kv.version kv.hash kv.numberOfRoutes kv.stream.length
      kv.stream 0)
  exact hperm.mem_iff.mpr (by rw [hcons]; exact List.mem_cons_self _ _)

/-! ## Store lemmas -/

theorem alookup_append_some (l : List (List Nat × KeyValue))
    (tail : List (List Nat × KeyValue)) (key : List Nat) (kv : KeyValue)
    (h : alookup l key = some kv) : alookup (l ++ tail) key = some kv := by
  unfold alookup at h ⊢
  rw [List.find?_append]
  obtain ⟨p, hp, hpv⟩ : ∃ p, l.find? (fun p => p.1 = key) = some p ∧ p.2 = kv := by
    cases hfind : l.find? (fun p => p.1 = key) with
    | none => rw [hfind] at h; simp at h
    | some p => rw [hfind] at h; simp at h; exact ⟨p, rfl, h⟩
  rw [Option.or_of_isSome (by rw [hp]; rfl), hp]
  simp [hpv]

theorem alookup_aupdate_self (l : List (List Nat × KeyValue)) (k : List Nat)
    (kv v' : KeyValue) (h : alookup l k = some kv) :
    alookup (aupdate l k v') k = some v' := by
  induction l with
  | nil => simp [alookup] at h
  | cons p ps ih =>
    by_cases hp : p.1 = k
    · simp [aupdate, hp, alookup, List.find?]
    · have h' : alookup ps k = some kv := by
        unfold alookup at h ⊢
        rw [List.find?_cons_of_neg _ (by simp [hp])] at h
        exact h
      unfold alookup aupdate
      rw [if_neg hp, List.find?_cons_of_neg _ (by simp [hp])]
      exact ih h'

theorem alookup_aupdate_ne (l : List (List Nat × KeyValue)) (k key : List Nat)
    (v' : KeyValue) (hne : key ≠ k) :
    alookup (aupdate l k v') key = alookup l key := by
  induction l with
  | nil => rfl
  | cons p ps ih =>
    by_cases hp : p.1 = k
    · unfold aupdate alookup
      rw [if_pos hp]
      rw [List.find?_cons_of_neg _ (by simp [Ne.symm hne]),
        List.find?_cons_of_neg _ (by simp [hp, Ne.symm hne])]
    · unfold aupdate alookup
      rw [if_neg hp]
      by_cases hpk : p.1 = key
      · rw [List.find?_cons_of_pos _ (by simp [hpk]),
          List.find?_cons_of_pos _ (by simp [hpk])]
      · rw [List.find?_cons_of_neg _ (by simp [hpk]),
          List.find?_cons_of_neg _ (by simp [hpk])]
        exact ih

/-- One `insert` never decreases the stored version of any present key. -/
theorem versionOf_insert_mono (hashFn : List Nat → Nat) (st : KvStore)
    (k v key : List Nat) (ver : Nat) (hv : versionOf st key = some ver) :
    ∃ ver', versionOf (st.insert hashFn k v) key = some ver' ∧ ver ≤ ver' := by
  obtain ⟨kv0, hkv0, hkv0v⟩ : ∃ kv0, alookup st.inner key = some kv0 ∧
      kv0.version = ver := by
    unfold versionOf at hv
    cases hl : alookup st.inner key with
    | none => rw [hl] at hv; simp at hv
    | some kv0 => rw [hl] at hv; simp at hv; exact ⟨kv0, rfl, hv⟩
  unfold KvStore.insert
  cases hex : alookup st.inner k with
  | none =>
    refine ⟨ver, ?_, le_rfl⟩
    unfold versionOf
    simp only
    rw [alookup_append_some st.inner _ key kv0 hkv0]
    simp [hkv0v]
  | some existing =>
    by_cases hkey : key = k
    · subst hkey
      have : existing = kv0 := by rw [hex] at hkv0; exact (Option.some_inj.mp hkv0)
      subst this
      refine ⟨existing.version + 1, ?_, by omega⟩
      unfold versionOf
      simp only
      rw [alookup_aupdate_self st.inner key existing (existing.update v) hex]
      rfl
    · refine ⟨ver, ?_, le_rfl⟩
      unfold versionOf
      simp only
      rw [alookup_aupdate_ne st.inner k key (existing.update v) hkey, hkv0]
      simp [hkv0v]

/-- Over any insert-only mutation sequence, stored versions never
decrease. -/
theorem versionOf_runOps_mono (hashFn : List Nat → Nat) (ops : List Op)
    (hops : ∀ op ∈ ops, op.isIns = true) :
    ∀ (st : KvStore) (key : List Nat) (ver : Nat),
      versionOf st key = some ver →
      ∃ ver', versionOf (runOps hashFn st ops) key = some ver' ∧ ver ≤ ver' := by
  induction ops with
  | nil => intro st key ver hv; exact ⟨ver, hv, le_rfl⟩
  | cons op ops' ih =>
    intro st key ver hv
    match op, hops op (List.mem_cons_self op ops') with
    | Op.ins k v, _ =>
      obtain ⟨ver₁, hv₁, hle₁⟩ := versionOf_insert_mono hashFn st k v key ver hv
      obtain ⟨ver', hv', hle'⟩ := ih
        (fun o ho => hops o (List.mem_cons_of_mem _ ho)) _ key ver₁ hv₁
      exact ⟨ver', hv', le_trans hle₁ hle'⟩

/-! ## Claims -/

/-- C1 (amended): for every pair whose serialized key and serialized value
each fit the `u16` length fields (≤ 65 535 bytes apiece), with the `u16`
version invariant and the hash derived from the key as the constructors
guarantee, decoding the encoded collection returns the pair
field-for-field. -/
theorem c1_roundtrip_amended (hashFn : List Nat → Nat) (kv : KeyValue)
    (hk : kv.keyLen ≤ 65535) (hv : kv.valLen ≤ 65535)
    (hver : kv.version < 65536) (hh : kv.hash = hashFn kv.key) :
    decodeKv hashFn (encodeKv kv) = DecodeResult.ok kv :=
  decode_encode_roundTrip hashFn kv hk hv hver hh

theorem c1_roundtrip_witness :
    (kvS4.keyLen ≤ 65535 ∧ kvS4.valLen ≤ 65535 ∧ kvS4.version < 65536 ∧
      kvS4.hash = sampleHash kvS4.key) ∧
    decodeKv sampleHash (encodeKv kvS4) = DecodeResult.ok kvS4 :=
  ⟨by decide, c1_roundtrip_amended sampleHash kvS4 (by decide) (by decide)
    (by decide) (by decide)⟩

/-- C1 counterexample: the pair `kvWrapVal` has combined serialized length
65 544 ≤ 786 420, yet decoding its encoding yields a decode error, not the
pair: its serialized value length is exactly `2 ^ 16`, so the `val_len as
u16` field wraps to 0 and the value deserializes from an empty slice. -/
theorem c1_wrap_counterexample :
    kvWrapVal.keyLen + kvWrapVal.valLen ≤ 786420 ∧
    decodeKv sampleHash (encodeKv kvWrapVal) =
      DecodeResult.err (KvsError.DecodeError (r"Couldn't decode value")) := by
  have hkL : kvWrapVal.keyLen = 8 := rfl
  have hval : kvWrapVal.value = List.replicate 65528 3 := rfl
  have hvL : kvWrapVal.valLen = 65536 := by
    unfold KeyValue.valLen
    rw [hval, length_serialize, List.length_replicate]
  refine ⟨by omega, ?_⟩
  have hN : kvWrapVal.numberOfRoutes ≤ 65536 := by
    rw [numberOfRoutes_formula, hkL, hvL]
    norm_num
  rw [decode_encode sampleHash kvWrapVal hN, hkL, hvL]
  have h8 : (8 : Nat) % 65536 = 8 := by norm_num
  have h0 : (65536 : Nat) % 65536 = 0 := by norm_num
  have hver : kvWrapVal.version % 65536 = 0 := rfl
  rw [h8, h0, hver]
  have hklen : (serialize kvWrapVal.key).length = 8 := hkL
  have hvlen : (serialize kvWrapVal.value).length = 65536 := hvL
  have hbytes : (kvWrapVal.asBytes ++
      List.replicate (padLen kvWrapVal.stream.length) 0).length =
      65544 + padLen kvWrapVal.stream.length := by
    simp [KeyValue.asBytes, hklen, hvlen]
    omega
  unfold splitPhase
  rw [if_neg (by omega)]
  have htail : kvWrapVal.asBytes ++
      List.replicate (padLen kvWrapVal.stream.length) 0 =
      serialize kvWrapVal.key ++ (serialize kvWrapVal.value ++
        List.replicate (padLen kvWrapVal.stream.length) 0) := by
    simp [KeyValue.asBytes]
  have htake : (kvWrapVal.asBytes ++
      List.replicate (padLen kvWrapVal.stream.length) 0).take 8 =
      serialize kvWrapVal.key := by
    rw [htail]; exact List.take_left' hklen
  have hdrop : (kvWrapVal.asBytes ++
      List.replicate (padLen kvWrapVal.stream.length) 0).drop 8 =
      serialize kvWrapVal.value ++
        List.replicate (padLen kvWrapVal.stream.length) 0 := by
    rw [htail]; exact List.drop_left' hklen
  rw [htake, hdrop]
  rw [if_neg (by omega)]
  rw [deserialize_serialize kvWrapVal.key (by norm_num [kvWrapVal])]
  rw [List.take_zero]
  rfl

/-- C2 (amended): for every pair with at most 65 535 routes (and the `u16`
version / `u64` hash type invariants), the encoded collection has exactly
`number_of_routes` routes, its sequence numbers are exactly `0 .. N-1` in
order, and every route's next-hop carries the pair's version, `N` and
key hash. -/
theorem c2_encode_fields_amended (kv : KeyValue) (hver : kv.version < 65536)
    (hh : kv.hash < 2 ^ 64) (hN : kv.numberOfRoutes ≤ 65535) :
    (encodeKv kv).routes.length = kv.numberOfRoutes ∧
    (encodeKv kv).routes.map Route.sequence = List.range kv.numberOfRoutes ∧
    ∀ r ∈ (encodeKv kv).routes,
      r.nhVersion = kv.version ∧ r.collectionLength = kv.numberOfRoutes ∧
      r.nhHash = kv.hash := by
  refine ⟨encodeKv_length kv (by omega), encodeKv_map_sequence kv (by omega), ?_⟩
  intro r hr
  obtain ⟨j, d, rfl⟩ := encodeKv_mem_shape kv r hr
  refine ⟨?_, ?_, mkRoute_nhHash _ _ _ _ _ hh⟩
  · rw [mkRoute_nhVersion]; exact Nat.mod_eq_of_lt hver
  · rw [mkRoute_collectionLength]; exact Nat.mod_eq_of_lt (by omega)

theorem c2_encode_fields_witness :
    (kvS4.version < 65536 ∧ kvS4.hash < 2 ^ 64 ∧ kvS4.numberOfRoutes ≤ 65535) ∧
    ((encodeKv kvS4).routes.length = kvS4.numberOfRoutes ∧
     (encodeKv kvS4).routes.map Route.sequence = List.range kvS4.numberOfRoutes ∧
     ∀ r ∈ (encodeKv kvS4).routes,
       r.nhVersion = kvS4.version ∧ r.collectionLength = kvS4.numberOfRoutes ∧
       r.nhHash = kvS4.hash) :=
  ⟨by decide, c2_encode_fields_amended kvS4 (by decide) (by decide) (by decide)⟩

/-- C2 counterexample: `kvWrapN` encodes to exactly `2 ^ 16` routes; its
first route's next-hop carries `N as u16 = 0`, not `N = 65 536`. -/
theorem c2_wrapN_counterexample :
    ∃ r ∈ (encodeKv kvWrapN).routes,
      r.collectionLength ≠ kvWrapN.numberOfRoutes := by
  have hval : kvWrapN.value = List.replicate 786412 0 := rfl
  have hvL : kvWrapN.valLen = 786420 := by
    unfold KeyValue.valLen
    rw [hval, length_serialize, List.length_replicate]
  have hkL : kvWrapN.keyLen = 8 := rfl
  have hN : kvWrapN.numberOfRoutes = 65536 := by
    rw [numberOfRoutes_formula, hkL, hvL]
  refine ⟨mkRoute kvWrapN.version kvWrapN.hash kvWrapN.numberOfRoutes 0
    (pad12 kvWrapN.stream), encodeKv_head_mem kvWrapN, ?_⟩
  rw [mkRoute_collectionLength, hN]
  norm_num

/-- C3: the encoder's `TryFrom` never returns an error; in particular the
oversized pair `kvOversize` (combined serialized payload 786 436 bytes,
beyond the `65 535 × 12` capacity) still encodes successfully — the `seq`
and `N` fields silently wrap instead. -/
theorem c3_encode_never_fails :
    786420 < kvOversize.keyLen + kvOversize.valLen ∧
    encodeE kvOversize = Except.ok (encodeKv kvOversize) := by
  have hval : kvOversize.value = List.replicate 786420 0 := rfl
  have hvL : kvOversize.valLen = 786428 := by
    unfold KeyValue.valLen
    rw [hval, length_serialize, List.length_replicate]
  have hkL : kvOversize.keyLen = 8 := rfl
  exact ⟨by omega, rfl⟩

/-- C4 (amended): the decoder rejects, with a decode error, any collection
in which some route lacks the `0xBF51` magic or carries a sequence number
different from its position (`as u16`); it does not cross-check `version`,
`key_hash` or `N` across routes (they are read from the first route only). -/
theorem c4_positional_validation (hashFn : List Nat → Nat)
    (rc : RouteCollection) (j : Nat) (r : Route)
    (hj : rc.routes.get? j = some r)
    (hbad : ¬ r.hasValidPfx = true ∨ r.sequence ≠ j % 65536) :
    ∃ e, decodeKv hashFn rc = DecodeResult.err e := by
  obtain ⟨rs⟩ := rc
  match rs, hj with
  | first :: rest, hj =>
    have hb' : ¬ r.hasValidPfx = true ∨ r.sequence ≠ (0 + j) % 65536 := by
      rcases hbad with h' | h'
      · exact Or.inl h'
      · refine Or.inr ?_
        rw [Nat.zero_add]
        exact h'
    obtain ⟨e, he⟩ := gather_err_of_bad (first :: rest) 0 j r hj hb'
    exact ⟨e, by rw [decodeKv_cons, he]⟩

theorem c4_positional_validation_witness :
    (rcNoMagic.routes.get? 0 = some badRoute ∧ ¬ badRoute.hasValidPfx = true) ∧
    (∃ e, decodeKv sampleHash rcNoMagic = DecodeResult.err e) :=
  ⟨by decide, c4_positional_validation sampleHash rcNoMagic 0 badRoute
    (by decide) (Or.inl (by decide))⟩

/-- C4 counterexample: `rcMixed` is accepted by the decoder (returning the
empty-string pair at version 0) even though its two routes disagree in
next-hop `version` (0 vs 9), `N` (2 vs 7) and `key_hash`
(0 vs 0x0102030405060708): the decoder performs no cross-route check of
those fields. -/
theorem c4_no_crosscheck_counterexample :
    rcMixed.routes.map Route.nhVersion = [0, 9] ∧
    rcMixed.routes.map Route.collectionLength = [2, 7] ∧
    rcMixed.routes.map Route.nhHash = [0, 72623859790382856] ∧
    decodeKv sampleHash rcMixed =
      DecodeResult.ok (KeyValue.withVersion sampleHash [] [] 0) := by
  decide

/-- C5: removing the final route (seq 5) from the 6-route encoding of the
`missing_route` test pair makes the decoder panic in `split_at` (the
length header demands 64 payload bytes but only 56 remain), instead of
returning a typed decode error. -/
theorem c5_missing_last_route_panics :
    (encodeKv kvMissing).routes.length = 6 ∧
    decodeKv sampleHash
      (RouteCollection.fromRoutes ((encodeKv kvMissing).routes.take 5)) =
      DecodeResult.panicked := by
  decide

/-- C6 (amended): inserting an existing key encodes the old pair to the
withdraw collection before mutating, replaces the value, bumps the version
by exactly 1, encodes the updated pair to the announce collection and
queues one update carrying both; and over any insert-only mutation
sequence the stored version of every present key never decreases (a
remove discards the entry, and a later re-insert restarts at version 0). -/
theorem c6_insert_update_monotone (hashFn : List Nat → Nat) (st : KvStore)
    (k v : List Nat) (kv : KeyValue) (h : alookup st.inner k = some kv) :
    (alookup (st.insert hashFn k v).inner k = some (kv.update v) ∧
     (kv.update v).value = v ∧ (kv.update v).version = kv.version + 1 ∧
     (st.insert hashFn k v).outbound =
       st.outbound ++ [⟨some (encodeKv (kv.update v)), some (encodeKv kv)⟩]) ∧
    ∀ ops : List Op, (∀ op ∈ ops, op.isIns = true) →
      ∀ key ver, versionOf st key = some ver →
        ∃ ver', versionOf (runOps hashFn st ops) key = some ver' ∧
          ver ≤ ver' := by
  have hins : st.insert hashFn k v =
      { inner := aupdate st.inner k (kv.update v)
        outbound := st.outbound ++
          [⟨some (encodeKv (kv.update v)), some (encodeKv kv)⟩] } := by
    unfold KvStore.insert
    rw [h]
  constructor
  · rw [hins]
    exact ⟨alookup_aupdate_self st.inner k kv (kv.update v) h, rfl, rfl, rfl⟩
  · intro ops hops key ver hv
    exact versionOf_runOps_mono hashFn ops hops st key ver hv

theorem c6_insert_update_monotone_witness :
    alookup stOneKey.inner [107] = some kvVer0 ∧
    ((alookup (stOneKey.insert sampleHash [107] [98]).inner [107] =
        some (kvVer0.update [98]) ∧
      (kvVer0.update [98]).value = [98] ∧
      (kvVer0.update [98]).version = kvVer0.version + 1 ∧
      (stOneKey.insert sampleHash [107] [98]).outbound =
        stOneKey.outbound ++
          [⟨some (encodeKv (kvVer0.update [98])), some (encodeKv kvVer0)⟩]) ∧
     ∀ ops : List Op, (∀ op ∈ ops, op.isIns = true) →
       ∀ key ver, versionOf stOneKey key = some ver →
         ∃ ver', versionOf (runOps sampleHash stOneKey ops) key = some ver' ∧
           ver ≤ ver') :=
  ⟨by decide, c6_insert_update_monotone sampleHash stOneKey [107] [98] kvVer0
    (by decide)⟩

/-- C6 counterexample: two inserts of the same key leave it at version 1;
removing it and inserting again leaves it at version 0 — over a mutation
sequence that includes a remove, the stored version decreases. -/
theorem c6_remove_reinsert_counterexample :
    versionOf (runOps sampleHash KvStore.new opsTwoInserts) [107] = some 1 ∧
    versionOf (runOps sampleHash KvStore.new opsRemReinsert) [107] = some 0 := by
  decide

/-- C7: the reassembly loop pushes routes unconditionally: feeding the
seq-0 route of a 3-route pair twice stores two copies of it.  Feeding the
duplicate before the full collection makes the premature completion
decode fail and discard everything, so zero pairs are delivered — while
the same collection without the duplicate delivers exactly one pair. -/
theorem c7_duplicate_routes_buffer :
    (bufferRun sampleHash BufState.empty
      ((encodeKv kvDup).routes.take 1 ++ (encodeKv kvDup).routes.take 1)).pending.map
        (fun p => p.2.length) = [2] ∧
    (bufferRun sampleHash BufState.empty
      ((encodeKv kvDup).routes.take 1 ++ (encodeKv kvDup).routes)).delivered = [] ∧
    (bufferRun sampleHash BufState.empty (encodeKv kvDup).routes).delivered =
      [kvDup] := by
  decide

/-- C8: the reassembly loop never compares versions: interleaving the
version-0 seq-0 route with the complete version-1 collection of the same
key corrupts the pending entry, the premature decode fails, and nothing
is delivered — while the version-1 collection alone delivers its pair. -/
theorem c8_no_supersession_buffer :
    (bufferRun sampleHash BufState.empty
      ((encodeKv kvVer0).routes.take 1 ++ (encodeKv kvVer1).routes)).delivered =
      [] ∧
    (bufferRun sampleHash BufState.empty (encodeKv kvVer1).routes).delivered =
      [kvVer1] := by
  decide

/-- C9 counterexample: `("MyKey", "Some Value")` encodes to 3 routes, not
2: the stream is 4 + 13 + 18 = 35 bytes and `ceil(35 / 12) = 3`. -/
theorem c9_route_count_counterexample :
    ¬ (encodeKv kvS4).routes.length = 2 := by
  decide

/-- C9 (amended): `("MyKey", "Some Value")` at version 0 encodes to
exactly 3 routes; the first prefix's four leading 16-bit segments are
`[0xBF51, 0, 13, 18]` (`key_len = 13`, `val_len = 18`); decoding recovers
the exact pair at version 0. -/
theorem c9_s4_roundtrip_amended :
    (encodeKv kvS4).routes.length = 3 ∧
    (encodeKv kvS4).routes.head?.map
      (fun r => (seg r.pfx 0, seg r.pfx 1, seg r.pfx 2, seg r.pfx 3)) =
      some (0xbf51, 0, 13, 18) ∧
    decodeKv sampleHash (encodeKv kvS4) = DecodeResult.ok kvS4 := by
  decide

/-- C10: the corrected `Prefix::From<&BytesMut>` (`src/kv.rs`, via
`octets_to_ip`) reproduces any 16-byte input verbatim, while the earlier
revision (`src/lib.rs`), which writes `bytes[3]` into octet positions 2
and 3, differs from it on an input whose bytes 2 and 3 differ — the two
revisions are not extensionally equal. -/
theorem c10_pfx_from_bytes (b : List Nat) (h : b.length = 16) :
    pfxFromBytesNew b = b ∧
    sampleBytes16.getD 2 0 ≠ sampleBytes16.getD 3 0 ∧
    pfxFromBytesOld sampleBytes16 ≠ pfxFromBytesNew sampleBytes16 := by
  refine ⟨?_, by decide, by decide⟩
  unfold pfxFromBytesNew
  rw [← h]
  exact List.take_length b

theorem c10_pfx_from_bytes_witness :
    sampleBytes16.length = 16 ∧
    (pfxFromBytesNew sampleBytes16 = sampleBytes16 ∧
     sampleBytes16.getD 2 0 ≠ sampleBytes16.getD 3 0 ∧
     pfxFromBytesOld sampleBytes16 ≠ pfxFromBytesNew sampleBytes16) :=
  ⟨by decide, c10_pfx_from_bytes sampleBytes16 (by decide)⟩

end KvsBgp
